import Mathlib

/-!
# Verification of `cate/tx.py` (atomic cross-chain trading core)

Shallow embedding of the transaction-construction and cooperative-signing
logic of `src/cate/tx.py` into Lean 4, together with theorems settling the
frozen claims about it.

Modelling conventions:
* Byte strings (addresses, hashes, signatures, public keys, secrets) are
  `List Nat`, one entry per byte.
* Amounts are `Int` (Python integers in the smallest unit).
* Script elements mirror the items handed to `CScript([...])`: opcodes,
  small integers, and data pushes.
* External collaborators (the RPC proxy, the fee-rate provider, and the
  cryptographic primitives of the `bitcoin` library: `GetHash`,
  `SignatureHash`, `CKey.sign`, `CKey.pub`) are explicit parameters, so
  every definition stays executable once they are instantiated.
* Python exceptions become `Except Err _`; each `raise` site in the source
  gets its own message constructor, and `Err.kind` is the Python class of
  the raised exception (`error.TradeError`, `error.FundsError`, or the
  builtin `NameError`).
-/

/-- A byte string: one `Nat` per byte. -/
abbrev ByteStr := List Nat

/-- Message payloads of the `error.TradeError` raises in `tx.py`, one
constructor per distinct `raise` site (the source builds a distinct message
string at each site; the lock-time messages interpolate the offending lock
time). -/
inductive TradeMsg where
  | lockTimeTooEarly (lockTime : Nat)
  | lockTimeTooLate (lockTime : Nat)
  | notOneInput
  | notOneOutput
  | finalSequence
  | signNotOneInput
  | moreThanTwoElements
  | lessThanTwoElements
  | incompleteSigning
  deriving DecidableEq, Repr

/-- Exceptions raised by `tx.py`: `error.TradeError` (with a message),
`error.FundsError`, and the Python builtin `NameError` (for a lookup of an
undefined name). -/
inductive Err where
  | tradeError (msg : TradeMsg)
  | fundsError
  | nameError (name : String)
  deriving DecidableEq, Repr

/-- The Python class of a raised exception, forgetting the message. -/
inductive ErrKind where
  | trade
  | funds
  | name
  deriving DecidableEq, Repr

/-- Map an exception to its Python class. -/
def Err.kind : Err → ErrKind
  | .tradeError _ => .trade
  | .fundsError => .funds
  | .nameError _ => .name

/-- The Python class of the exception of a failed computation, if any. -/
def errKind? {α : Type} : Except Err α → Option ErrKind
  | .error e => some e.kind
  | .ok _ => none

instance {ε α : Type} [DecidableEq ε] [DecidableEq α] :
    DecidableEq (Except ε α) := fun a b =>
  match a, b with
  | .ok x, .ok y =>
    if h : x = y then .isTrue (by rw [h]) else .isFalse (by simpa using h)
  | .ok _, .error _ => .isFalse (by simp)
  | .error _, .ok _ => .isFalse (by simp)
  | .error x, .error y =>
    if h : x = y then .isTrue (by rw [h]) else .isFalse (by simpa using h)

/-- An item of a `CScript([...])` list: a raw opcode, a small integer
(serialized as `OP_0` / `OP_1`..`OP_16`), or a data push. -/
inductive ScriptElem where
  | op (code : Nat)
  | num (n : Nat)
  | data (bytes : ByteStr)
  deriving DecidableEq, Repr

/-- A script is the list of items handed to `CScript`. -/
abbrev Script := List ScriptElem

/-- `COutPoint`: reference to an output of a previous transaction. -/
structure COutPoint where
  hash : ByteStr
  n : Nat
  deriving DecidableEq, Repr

/-- `CTxIn` / `CMutableTxIn`: outpoint, unlocking script, sequence number. -/
structure CTxIn where
  prevout : COutPoint
  scriptSig : Script
  nSequence : Nat
  deriving DecidableEq, Repr

/-- `CMutableTxIn(outpoint)`: default empty `scriptSig` and final sequence
number `0xffffffff`. -/
def CMutableTxIn (outpoint : COutPoint) : CTxIn :=
  ⟨outpoint, [], 0xffffffff⟩

/-- `CTxOut`: amount and locking script. -/
structure CTxOut where
  nValue : Int
  scriptPubKey : Script
  deriving DecidableEq, Repr

/-- `CTransaction` / `CMutableTransaction`: inputs, outputs, lock time. -/
structure CTransaction where
  vin : List CTxIn
  vout : List CTxOut
  nLockTime : Nat
  deriving DecidableEq, Repr

/-- The final sequence-number sentinel `0xffffffff`. -/
def maxSequence : Nat := 0xffffffff

/-- `SIGHASH_ALL` from `bitcoin.core.script`. -/
def SIGHASH_ALL : Nat := 1

/-!
## Refund validator (`assert_tx2_valid`, tx.py lines 17–47)

The two `datetime.datetime.utcnow()` calls are modelled by a single
validation time `now`, in whole epoch seconds (the source truncates to
seconds via `calendar.timegm(….timetuple())`).
-/

/-- `assert_tx2_valid(tx2)` from `tx.py`: checks the peer-supplied TX2.
All four checks raise `error.TradeError`, each with its own message. -/
def assert_tx2_valid (now : Nat) (tx2 : CTransaction) : Except Err Unit :=
  let lock_min := now + 12 * 3600
  let lock_max := now + 72 * 3600
  let lock_time := tx2.nLockTime
  if lock_time < lock_min then
    .error (.tradeError (.lockTimeTooEarly lock_time))
  else if lock_time > lock_max then
    .error (.tradeError (.lockTimeTooLate lock_time))
  else if tx2.vin.length ≠ 1 then
    .error (.tradeError .notOneInput)
  else if tx2.vout.length ≠ 1 then
    .error (.tradeError .notOneOutput)
  else if (tx2.vin.headD (CMutableTxIn ⟨[], 0⟩)).nSequence = maxSequence then
    .error (.tradeError .finalSequence)
  else
    .ok ()

/-!
## Coin selector (`find_inputs`, tx.py lines 49–71)
-/

/-- One entry of `proxy.listunspent(0)`: a dict with `'amount'` and
`'outpoint'` keys. -/
structure Utxo where
  amount : Int
  outpoint : COutPoint
  deriving DecidableEq, Repr

/-- The `for txout in proxy.listunspent(0)` loop of `find_inputs`: adds the
amount, appends a `CMutableTxIn`, and breaks once the total reaches the
target. Returns the loop's final `(txins, total_in)`. -/
def find_inputs_loop (quantity : Int) :
    List Utxo → Int → List CTxIn → List CTxIn × Int
  | [], total_in, txins => (txins, total_in)
  | txout :: rest, total_in, txins =>
    let total_in' := total_in + txout.amount
    let txins' := txins ++ [CMutableTxIn txout.outpoint]
    if total_in' ≥ quantity then (txins', total_in')
    else find_inputs_loop quantity rest total_in' txins'

/-- `find_inputs(proxy, quantity)` from `tx.py`, with the proxy's
`listunspent(0)` answer passed as the list `unspent`. Raises
`error.FundsError` when the accumulated total stays below the target. -/
def find_inputs (unspent : List Utxo) (quantity : Int) :
    Except Err (List CTxIn × Int) :=
  let r := find_inputs_loop quantity unspent 0 []
  if r.2 < quantity then .error .fundsError
  else .ok r

/-- Sum of the amounts of a list of unspent outputs. -/
def sumAmounts (unspent : List Utxo) : Int :=
  (unspent.map Utxo.amount).sum

/-!
## Escrow script builder (`build_tx1_cscript`, tx.py lines 73–96)
-/

/-- Addresses are byte strings (`CBase58Data` payloads). -/
abbrev Address := ByteStr

/-- Opcode byte values from `bitcoin.core.script`. -/
def OP_IF : Nat := 0x63

def OP_ELSE : Nat := 0x67

def OP_ENDIF : Nat := 0x68

def OP_2DUP : Nat := 0x6e

def OP_DUP : Nat := 0x76

def OP_HASH160 : Nat := 0xa9

def OP_HASH256 : Nat := 0xaa

def OP_EQUAL : Nat := 0x87

def OP_EQUALVERIFY : Nat := 0x88

def OP_CHECKSIG : Nat := 0xac

def OP_CHECKSIGVERIFY : Nat := 0xad

def OP_CHECKMULTISIG : Nat := 0xae

/-- Lowercase hexadecimal digit, as an ASCII byte. -/
def hexDigit (d : Nat) : Nat := if d < 10 then 48 + d else 87 + d

/-- `b2x` from `bitcoin.core`: the lowercase hexadecimal rendering of a byte
string. In Python 2 the result is a `str`, i.e. itself a byte string of
ASCII characters, and that is what `tx.py` pushes into the script. -/
def b2x : ByteStr → ByteStr
  | [] => []
  | b :: rest => hexDigit (b / 16) :: hexDigit (b % 16) :: b2x rest

/-- `build_tx1_cscript(own_address, peer_address, secret_hash)` from
`tx.py`: the dual-path escrow script for TX1/TX3's main output. Note that
the source pushes `b2x(secret_hash)` — the ASCII hex text of the hash — not
the raw hash bytes. -/
def build_tx1_cscript (own_address peer_address : Address)
    (secret_hash : ByteStr) : Script :=
  [.op OP_IF,
     .op OP_2DUP, -- Multisig
       .op OP_HASH160, .data peer_address, .op OP_EQUALVERIFY,
       .op OP_HASH160, .data own_address, .op OP_EQUALVERIFY,
       .num 2, .op OP_CHECKMULTISIG,
   .op OP_ELSE,
     .op OP_DUP, -- Single sig + hash
       .op OP_HASH160, .data peer_address, .op OP_EQUALVERIFY,
       .op OP_CHECKSIGVERIFY,
       .op OP_HASH256, .data (b2x secret_hash), .op OP_EQUAL,
   .op OP_ENDIF]

/-- `CBitcoinAddress.to_scriptPubKey()`: the standard pay-to-pubkey-hash
locking script for an address. -/
def to_scriptPubKey (a : Address) : Script :=
  [.op OP_DUP, .op OP_HASH160, .data a, .op OP_EQUALVERIFY, .op OP_CHECKSIG]

/-!
## Script serialization (`CScript` wire bytes)

`CScriptOp.encode_op_pushdata` from `bitcoin.core.script`: direct length
byte below `0x4c`, else `OP_PUSHDATA1`/`2`/`4` with a little-endian length.
-/

/-- Serialized form of one data push. -/
def pushdata (bs : ByteStr) : ByteStr :=
  if bs.length < 76 then bs.length :: bs
  else if bs.length ≤ 0xff then 76 :: bs.length :: bs
  else if bs.length ≤ 0xffff then
    77 :: bs.length % 256 :: bs.length / 256 :: bs
  else
    78 :: bs.length % 256 :: bs.length / 256 % 256 ::
      bs.length / 65536 % 256 :: bs.length / 16777216 :: bs

/-- Little-endian base-256 digits of a natural number (used only by the
integer fallback below, which `tx.py` never exercises: the module pushes
only the integers `0` and `2`). -/
def natLEBytes (n : Nat) : ByteStr :=
  if h : n = 0 then []
  else (n % 256) :: natLEBytes (n / 256)
decreasing_by exact Nat.div_lt_self (Nat.pos_of_ne_zero h) (by omega)

/-- Serialized form of one `CScript` item, following
`CScript._CScript__coerce_instance`: a raw opcode is its byte, an integer
`0..16` becomes `OP_0`/`OP_1`..`OP_16`, larger integers are pushed as
bignum bytes, and byte strings are pushed with `encode_op_pushdata`. -/
def serializeElem : ScriptElem → ByteStr
  | .op c => [c]
  | .num n =>
    if n = 0 then [0]
    else if n ≤ 16 then [0x50 + n]
    else pushdata (natLEBytes n)
  | .data bs => pushdata bs

/-- Wire bytes of a whole script. -/
def serializeScript : Script → ByteStr
  | [] => []
  | e :: rest => serializeElem e ++ serializeScript rest

/-- Parse one serialized data push off the front of a byte string,
returning the pushed payload and the remaining bytes. Used to show that
`pushdata` is left-cancellative. -/
def decodePush : ByteStr → Option (ByteStr × ByteStr)
  | [] => none
  | b :: rest =>
    if b < 76 then some (rest.take b, rest.drop b)
    else if b = 76 then
      match rest with
      | l :: r => some (r.take l, r.drop l)
      | [] => none
    else if b = 77 then
      match rest with
      | l0 :: l1 :: r =>
        some (r.take (l0 + 256 * l1), r.drop (l0 + 256 * l1))
      | _ => none
    else if b = 78 then
      match rest with
      | l0 :: l1 :: l2 :: l3 :: r =>
        some (r.take (l0 + 256 * l1 + 65536 * l2 + 16777216 * l3),
          r.drop (l0 + 256 * l1 + 65536 * l2 + 16777216 * l3))
      | _ => none
    else none

/-!
## External collaborators

The RPC proxy, the fee-rate provider and the `bitcoin` library's
cryptographic primitives are opaque to `tx.py`; they enter the embedding as
explicit parameters so that every definition remains executable once they
are instantiated.
-/

/-- A wallet private key as returned by `proxy.dumpprivkey`; opaque data. -/
abbrev SecKey := ByteStr

/-- Result dict of `proxy.signrawtransaction`: the (possibly) signed
transaction and the `'complete'` flag. -/
structure SignResult where
  tx : CTransaction
  complete : Bool

/-- The daemon RPC proxy, restricted to the calls `tx.py` makes. -/
structure Proxy where
  listunspent : List Utxo
  getrawchangeaddress : Address
  signrawtransaction : CTransaction → SignResult
  dumpprivkey : Address → SecKey

/-- Cryptographic primitives of the `bitcoin` library used by `tx.py`:
`CTransaction.GetHash`, `SignatureHash(script, tx, inIdx, hashtype)`,
`CKey.sign`, `CKey.pub`. -/
structure Crypto where
  getHash : CTransaction → ByteStr
  signatureHash : Script → CTransaction → Nat → Nat → ByteStr
  sign : SecKey → ByteStr → ByteStr
  pub : SecKey → ByteStr

/-!
## Escrow transaction builder (`build_tx1`, tx.py lines 98–133)
-/

/-- `build_tx1(proxy, quantity, own_address, peer_address, secret_hash,
fee_rate)` from `tx.py`. The fee is estimated for a 2000-byte transaction;
a change output is appended exactly when the selected total exceeds
`quantity + fee`; the wallet signs all inputs and an incomplete signing is
a `TradeError`. -/
def build_tx1 (proxy : Proxy) (quantity : Int)
    (own_address peer_address : Address) (secret_hash : ByteStr)
    (fee_rate : Nat → Int) : Except Err CTransaction :=
  let quantity_inc_fee := quantity + fee_rate 2000
  match find_inputs proxy.listunspent quantity_inc_fee with
  | .error e => .error e
  | .ok (txins, total_in) =>
    let txout : CTxOut :=
      ⟨quantity, build_tx1_cscript own_address peer_address secret_hash⟩
    let txouts := [txout]
    -- Generate a change transaction if needed
    let txouts :=
      if total_in > quantity_inc_fee then
        txouts ++ [⟨total_in - quantity_inc_fee,
                    to_scriptPubKey proxy.getrawchangeaddress⟩]
      else txouts
    let tx : CTransaction := ⟨txins, txouts, 0⟩
    let tx_signed := proxy.signrawtransaction tx
    if tx_signed.complete then .ok tx_signed.tx
    else .error (.tradeError .incompleteSigning)

/-!
## Refund transaction builder (`build_tx2`, tx.py lines 135–177)

The source mutates `txin.scriptSig` after constructing `tx` around the very
same `txin` object; the embedding builds the final transaction with the
signed input directly, and computes the signature hash over the transaction
as it stood at the `SignatureHash` call (empty `scriptSig`).

`tx1.vout[0]` is modelled with `headD`; every theorem about `build_tx2`
assumes `tx1` has at least one output, as a Python call on an output-less
`tx1` would raise `IndexError`.
-/

/-- The unsigned refund skeleton of `build_tx2`: one input spending output
0 of `tx1` with sequence number 1 and empty `scriptSig`, one output paying
`prev_out.nValue - fee` to `own_address`, at the given lock time. -/
def build_tx2_unsigned (c : Crypto) (tx1 : CTransaction) (nLockTime : Nat)
    (own_address : Address) (fee_rate : Nat → Int) : CTransaction :=
  let prev_txid := c.getHash tx1
  let prev_out := tx1.vout.headD ⟨0, []⟩
  let txin : CTxIn := ⟨⟨prev_txid, 0⟩, [], 1⟩
  let fee := fee_rate 1000
  ⟨[txin], [⟨prev_out.nValue - fee, to_scriptPubKey own_address⟩], nLockTime⟩

/-- `build_tx2(proxy, tx1, nLockTime, own_address, fee_rate)` from `tx.py`:
the partially signed refund transaction. The signature hash is computed
with `SignatureHash(txin_scriptPubKey, tx, 0, SIGHASH_ALL)` where
`txin_scriptPubKey = prev_out.scriptPubKey`, the script actually recorded
on `tx1`'s output 0. -/
def build_tx2 (c : Crypto) (proxy : Proxy) (tx1 : CTransaction)
    (nLockTime : Nat) (own_address : Address) (fee_rate : Nat → Int) :
    CTransaction :=
  let prev_out := tx1.vout.headD ⟨0, []⟩
  let seckey := proxy.dumpprivkey own_address
  let txin_scriptPubKey := prev_out.scriptPubKey
  let tx := build_tx2_unsigned c tx1 nLockTime own_address fee_rate
  let sighash := c.signatureHash txin_scriptPubKey tx 0 SIGHASH_ALL
  let sig := c.sign seckey sighash ++ [SIGHASH_ALL]
  { tx with
    vin := tx.vin.map
      (fun txin => { txin with
        scriptSig := [.data sig, .data (c.pub seckey)] }) }

/-- `build_tx3` from `tx.py`: literally `build_tx1` with the two addresses
swapped. -/
def build_tx3 (proxy : Proxy) (quantity : Int)
    (own_address peer_address : Address) (secret_hash : ByteStr)
    (fee_rate : Nat → Int) : Except Err CTransaction :=
  build_tx1 proxy quantity peer_address own_address secret_hash fee_rate

/-- `build_tx4` from `tx.py`: literally `build_tx2` on the same
arguments. -/
def build_tx4 (c : Crypto) (proxy : Proxy) (tx3 : CTransaction)
    (nLockTime : Nat) (own_address : Address) (fee_rate : Nat → Int) :
    CTransaction :=
  build_tx2 c proxy tx3 nLockTime own_address fee_rate

/-!
## Secret-spend builder (`build_tx3_spend`, tx.py lines 186–217)
-/

/-- `build_tx3_spend(proxy, tx1, secret, own_address)` from `tx.py`. Its
first statement is `fee = fee_rate.get_fee(1000)`, but `fee_rate` is
neither a parameter of this function nor a name defined or imported at
module level in `tx.py` (and `seckey`, used further down to sign, is
missing in the same way even though the comment above the function says
"seckey is the secret key used to sign the transaction"). In Python every
call therefore raises `NameError: global name 'fee_rate' is not defined`
before any transaction is constructed; the embedding records that failing
global lookup. -/
def build_tx3_spend (_c : Crypto) (_proxy : Proxy) (_tx1 : CTransaction)
    (_secret : ByteStr) (_own_address : Address) : Except Err CTransaction :=
  .error (.nameError "fee_rate")

/-!
## Cooperative signer (`sign_tx2`, tx.py lines 219–255)
-/

/-- The `data` component `CScript.raw_iter` yields for one script element:
the pushed bytes for a data push (`OP_0` pushes the empty byte string),
`None` for a bare opcode such as `OP_1`..`OP_16`. -/
def elemData : ScriptElem → Option ByteStr
  | .data bs => some bs
  | .num n => if n = 0 then some [] else if n ≤ 16 then none
              else some (natLEBytes n)
  | .op _ => none

/-- The `for (opcode, data, sop_idx) in tx2.vin[0].scriptSig.raw_iter()`
loop of `sign_tx2`: fill the `other_sig` slot, then the `other_pubkey`
slot, and raise once a third element arrives. A slot counts as filled as
soon as it is not `None` (the source compares with `== None`). -/
def extract_two :
    List ScriptElem → Option ByteStr → Option ByteStr →
    Except Err (Option ByteStr × Option ByteStr)
  | [], other_sig, other_pubkey => .ok (other_sig, other_pubkey)
  | e :: rest, other_sig, other_pubkey =>
    match other_sig with
    | none => extract_two rest (elemData e) other_pubkey
    | some _ =>
      match other_pubkey with
      | none => extract_two rest other_sig (elemData e)
      | some _ => .error (.tradeError .moreThanTwoElements)

/-- Python truthiness of an extracted element: `None` and the empty byte
string are falsy (`if not other_sig or not other_pubkey`). -/
def truthy : Option ByteStr → Bool
  | none => false
  | some [] => false
  | some (_ :: _) => true

/-- `sign_tx2(proxy, tx2, own_address, peer_address, secret_hash)` from
`tx.py`: co-sign the peer's refund transaction. The escrow script is
rebuilt with the two addresses reversed (the peer's point of view), and the
completed unlocking script is
`[0, sig, other_sig, seckey.pub, other_pubkey, 2]`, attached to the input
of a mutable copy of `tx2` (`CMutableTransaction.from_tx`). -/
def sign_tx2 (c : Crypto) (proxy : Proxy) (tx2 : CTransaction)
    (own_address peer_address : Address) (secret_hash : ByteStr) :
    Except Err CTransaction :=
  if tx2.vin.length ≠ 1 then .error (.tradeError .signNotOneInput)
  else
    match extract_two (tx2.vin.headD (CMutableTxIn ⟨[], 0⟩)).scriptSig
        none none with
    | .error e => .error e
    | .ok (other_sig, other_pubkey) =>
      match other_sig, other_pubkey with
      | some (s0 :: srest), some (p0 :: prest) =>
        let osig := s0 :: srest
        let opub := p0 :: prest
        let seckey := proxy.dumpprivkey own_address
        -- Rebuild the input script for TX1, inputs reversed: peer's view
        let txin_scriptPubKey :=
          build_tx1_cscript peer_address own_address secret_hash
        let sighash := c.signatureHash txin_scriptPubKey tx2 0 SIGHASH_ALL
        let sig := c.sign seckey sighash ++ [SIGHASH_ALL]
        let newScriptSig : Script :=
          [.num 0, .data sig, .data osig,
           .data (c.pub seckey), .data opub, .num 2]
        .ok { tx2 with
          vin := match tx2.vin with
            | txin0 :: rest => { txin0 with scriptSig := newScriptSig } :: rest
            | [] => [] }
      | _, _ => .error (.tradeError .lessThanTwoElements)

/-!
## Heap model of `sign_tx2` (for the frame claim)

The source mutates `tx2.vin[0].scriptSig`, but only after
`tx2 = CMutableTransaction.from_tx(tx2)` rebinds `tx2` to a fresh mutable
copy whose inputs are newly allocated objects. To talk about what happens
to the *caller's* transaction object, inputs live in an explicit heap of
`CTxIn` cells addressed by references; `from_tx` allocates fresh cells and
the script assignment writes only to the copy's cell.
-/

/-- A heap of `CTxIn` cells: an allocation bound and the cell contents.
Valid references are those below `nextRef`. -/
structure Heap where
  nextRef : Nat
  cells : Nat → CTxIn

/-- Allocate a fresh cell holding `v`; returns the new heap and the fresh
reference. -/
def Heap.alloc (h : Heap) (v : CTxIn) : Heap × Nat :=
  (⟨h.nextRef + 1, fun r => if r = h.nextRef then v else h.cells r⟩,
   h.nextRef)

/-- Overwrite the cell at `r`. -/
def Heap.write (h : Heap) (r : Nat) (v : CTxIn) : Heap :=
  ⟨h.nextRef, fun r2 => if r2 = r then v else h.cells r2⟩

/-- A transaction whose inputs are references into the heap. -/
structure HTx where
  vin : List Nat
  vout : List CTxOut
  nLockTime : Nat

/-- The plain transaction value an `HTx` denotes in a heap. -/
def HTx.deref (t : HTx) (h : Heap) : CTransaction :=
  ⟨t.vin.map h.cells, t.vout, t.nLockTime⟩

/-- `CMutableTransaction.from_tx`, input side: allocate a fresh cell for
each input, copying its current contents. -/
def from_tx_alloc (h : Heap) : List Nat → Heap × List Nat
  | [] => (h, [])
  | r :: rest =>
    let a := h.alloc (h.cells r)
    let b := from_tx_alloc a.1 rest
    (b.1, a.2 :: b.2)

/-- `CMutableTransaction.from_tx(tx2)`: a copy of the transaction whose
inputs are freshly allocated cells. -/
def from_tx (h : Heap) (t : HTx) : Heap × HTx :=
  let a := from_tx_alloc h t.vin
  (a.1, ⟨a.2, t.vout, t.nLockTime⟩)

/-- `sign_tx2` over the heap model: identical control flow to `sign_tx2`,
with the input cells read through the heap, and the final script
assignment `tx2.vin[0].scriptSig = CScript([...])` performed as a heap
write on the `from_tx` copy's input cell. -/
def sign_tx2_heap (c : Crypto) (proxy : Proxy) (h : Heap) (tx2 : HTx)
    (own_address peer_address : Address) (secret_hash : ByteStr) :
    Heap × Except Err HTx :=
  if tx2.vin.length ≠ 1 then (h, .error (.tradeError .signNotOneInput))
  else
    match extract_two (h.cells (tx2.vin.headD 0)).scriptSig none none with
    | .error e => (h, .error e)
    | .ok (other_sig, other_pubkey) =>
      match other_sig, other_pubkey with
      | some (s0 :: srest), some (p0 :: prest) =>
        let osig := s0 :: srest
        let opub := p0 :: prest
        let seckey := proxy.dumpprivkey own_address
        let txin_scriptPubKey :=
          build_tx1_cscript peer_address own_address secret_hash
        let sighash :=
          c.signatureHash txin_scriptPubKey (tx2.deref h) 0 SIGHASH_ALL
        let sig := c.sign seckey sighash ++ [SIGHASH_ALL]
        let a := from_tx h tx2
        let r0 := a.2.vin.headD 0
        let newScriptSig : Script :=
          [.num 0, .data sig, .data osig,
           .data (c.pub seckey), .data opub, .num 2]
        (a.1.write r0 { a.1.cells r0 with scriptSig := newScriptSig },
         .ok a.2)
      | _, _ => (h, .error (.tradeError .lessThanTwoElements))

/-!
## Concrete fixtures

Concrete inputs used by witnesses and counterexamples.
-/

/-- A concrete validation time (epoch seconds). -/
def now0 : Nat := 1000000

/-- This party. -/
def ownA : Address := [1]

/-- The counterparty. -/
def peerA : Address := [2]

/-- A change address. -/
def chgA : Address := [3]

/-- A secret hash. -/
def shA : ByteStr := [4]

/-- Refund fixture: lock time one hour ahead, sequence 1, one input, one
output. -/
def txLockPlus1h : CTransaction :=
  ⟨[⟨⟨[9], 0⟩, [], 1⟩], [⟨5, []⟩], now0 + 3600⟩

/-- Refund fixture: lock time one hundred hours ahead. -/
def txLockPlus100h : CTransaction :=
  ⟨[⟨⟨[9], 0⟩, [], 1⟩], [⟨5, []⟩], now0 + 100 * 3600⟩

/-- Refund fixture: lock time 24 hours ahead, sequence 1, one input, one
output. -/
def txLockPlus24h : CTransaction :=
  ⟨[⟨⟨[9], 0⟩, [], 1⟩], [⟨5, []⟩], now0 + 24 * 3600⟩

/-- Refund fixture: lock time 24 hours ahead but two inputs. -/
def txTwoInputs : CTransaction :=
  ⟨[⟨⟨[9], 0⟩, [], 1⟩, ⟨⟨[8], 0⟩, [], 1⟩], [⟨5, []⟩], now0 + 24 * 3600⟩

/-- Probe instantiation of the cryptographic primitives: the signature
hash is the serialized script being signed over, signing returns the
message, the public key is the key itself. It makes the script a signature
was computed over visible in the output, which is what the refund-builder
claims are about. -/
def cryptoProbe : Crypto :=
  ⟨fun _ => [9], fun script _tx _inIdx _hashtype => serializeScript script,
   fun _ msg => msg, fun k => k⟩

/-- Witness proxy: three unspent outputs of 30, 50, 20; signing succeeds
and returns the transaction unchanged; `dumpprivkey` is the identity. -/
def proxyW : Proxy :=
  ⟨[⟨30, ⟨[1], 0⟩⟩, ⟨50, ⟨[2], 0⟩⟩, ⟨20, ⟨[3], 0⟩⟩], chgA,
   fun t => ⟨t, true⟩, fun a => a⟩

/-- Witness proxy with a single 150000 unspent output. -/
def proxy5 : Proxy :=
  ⟨[⟨150000, ⟨[9], 0⟩⟩], chgA, fun t => ⟨t, true⟩, fun a => a⟩

/-- Flat fee of 1000 for any estimated size. -/
def fee1000 : Nat → Int := fun _ => 1000

/-- A funding transaction fixture whose recorded output 0 pays to a plain
pay-to-pubkey-hash script (not an escrow script). -/
def tx1c : CTransaction :=
  ⟨[], [⟨100000, to_scriptPubKey [5]⟩], 0⟩

/-- Peer refund fixture for the cooperative signer: a single input whose
unlocking script is a signature and a public key. -/
def tx2c : CTransaction :=
  ⟨[⟨⟨[9], 0⟩, [.data [7], .data [8]], 1⟩], [⟨5, []⟩], now0⟩

/-- Heap fixture: one allocated cell holding the peer refund input. -/
def heap0 : Heap :=
  ⟨1, fun _ => ⟨⟨[9], 0⟩, [.data [7], .data [8]], 1⟩⟩

/-- Heap-transaction fixture referencing cell 0. -/
def htx0 : HTx := ⟨[0], [⟨5, []⟩], 777⟩

/-- The funding transaction `build_tx1` produces from `proxy5` for target
100000 and flat fee 1000: escrow output of 100000 and change output of
49000. -/
def txC5 : CTransaction :=
  ⟨[CMutableTxIn ⟨[9], 0⟩],
   [⟨100000, build_tx1_cscript ownA peerA shA⟩,
    ⟨49000, to_scriptPubKey chgA⟩], 0⟩

/-!
## Specification-side predicates
-/

/-- Formalization of the coin-selection claim: `txins` and `total` are the
outputs accumulated, in the order supplied, until the running total meets
or exceeds `quantity` — the prefix of `unspent` at the first point where
the running total covers the target, as inputs, with that total. -/
def isGreedySelection (unspent : List Utxo) (quantity : Int)
    (txins : List CTxIn) (total : Int) : Prop :=
  ∃ n, n ≤ unspent.length ∧
    txins = (unspent.take n).map (fun u => CMutableTxIn u.outpoint) ∧
    total = sumAmounts (unspent.take n) ∧
    quantity ≤ total ∧
    ∀ m, m < n → sumAmounts (unspent.take m) < quantity

/-- Number of outputs the `find_inputs` loop consumes before stopping,
starting from running total `tot`: one past the point where the total
first reaches the target, or the whole list. -/
def selectCount (quantity : Int) : List Utxo → Int → Nat
  | [], _ => 0
  | u :: rest, tot =>
    if tot + u.amount ≥ quantity then 1
    else selectCount quantity rest (tot + u.amount) + 1

/-!
## Theorems
-/

theorem sumAmounts_nil : sumAmounts [] = 0 := rfl

theorem sumAmounts_cons (u : Utxo) (l : List Utxo) :
    sumAmounts (u :: l) = u.amount + sumAmounts l := by
  simp [sumAmounts]

/-- The `find_inputs` loop consumes exactly `selectCount` outputs: it
appends the corresponding inputs to its accumulator and adds their amounts
to its running total. -/
theorem find_inputs_loop_eq (quantity : Int) (l : List Utxo) :
    ∀ (tot : Int) (acc : List CTxIn),
      find_inputs_loop quantity l tot acc =
        (acc ++ ((l.take (selectCount quantity l tot)).map
            fun u => CMutableTxIn u.outpoint),
         tot + sumAmounts (l.take (selectCount quantity l tot))) := by
  induction l with
  | nil => intro tot acc; simp [find_inputs_loop, selectCount, sumAmounts]
  | cons u rest ih =>
    intro tot acc
    simp only [find_inputs_loop, selectCount]
    by_cases h : tot + u.amount ≥ quantity
    · simp [h, sumAmounts_cons, sumAmounts_nil]
    · simp only [if_neg h]
      rw [ih]
      simp only [List.take_succ_cons, List.map_cons, sumAmounts_cons,
        List.append_assoc, List.singleton_append, Prod.mk.injEq]
      exact ⟨trivial, by omega⟩

/-- Every strict prefix of the consumed prefix leaves the running total
below the target (needs the starting total itself below the target). -/
theorem selectCount_min (quantity : Int) (l : List Utxo) :
    ∀ (tot : Int), tot < quantity →
      ∀ m, m < selectCount quantity l tot →
        tot + sumAmounts (l.take m) < quantity := by
  induction l with
  | nil => intro tot _ m hm; simp [selectCount] at hm
  | cons u rest ih =>
    intro tot htot m hm
    simp only [selectCount] at hm
    by_cases h : tot + u.amount ≥ quantity
    · rw [if_pos h] at hm
      have : m = 0 := by omega
      subst this
      simpa [sumAmounts] using htot
    · rw [if_neg h] at hm
      match m with
      | 0 => simpa [sumAmounts] using htot
      | m' + 1 =>
        have := ih (tot + u.amount) (by omega) m' (by omega)
        rw [List.take_succ_cons, sumAmounts_cons]
        omega

/-- The loop either stops with a total covering the target or consumes the
whole list with a total below it. -/
theorem selectCount_break (quantity : Int) (l : List Utxo) :
    ∀ (tot : Int),
      quantity ≤ tot + sumAmounts (l.take (selectCount quantity l tot)) ∨
      (selectCount quantity l tot = l.length ∧
        tot + sumAmounts l < quantity) := by
  induction l with
  | nil =>
    intro tot
    by_cases h : quantity ≤ tot
    · left; simpa [selectCount, sumAmounts] using h
    · right; simp [selectCount, sumAmounts]; omega
  | cons u rest ih =>
    intro tot
    simp only [selectCount]
    by_cases h : tot + u.amount ≥ quantity
    · left
      rw [if_pos h]
      have h1 : (u :: rest).take 1 = [u] := rfl
      rw [h1, sumAmounts_cons, sumAmounts_nil]
      omega
    · rw [if_neg h]
      rcases ih (tot + u.amount) with hcov | ⟨hlen, hlt⟩
      · left
        rw [List.take_succ_cons, sumAmounts_cons]
        omega
      · right
        refine ⟨by simp [hlen], ?_⟩
        rw [sumAmounts_cons]
        omega

/-- The loop never consumes more outputs than exist. -/
theorem selectCount_le (quantity : Int) (l : List Utxo) :
    ∀ (tot : Int), selectCount quantity l tot ≤ l.length := by
  induction l with
  | nil => intro tot; simp [selectCount]
  | cons u rest ih =>
    intro tot
    simp only [selectCount, List.length_cons]
    by_cases h : tot + u.amount ≥ quantity
    · rw [if_pos h]; omega
    · rw [if_neg h]; have := ih (tot + u.amount); omega

/-- C1: for every refund transaction tx2 and validation time now,
`assert_tx2_valid` succeeds if and only if the lock time of tx2 is at
least now + 12 hours and at most now + 72 hours, tx2 has exactly one
input, exactly one output, and the sequence number of the input is not
0xffffffff; in particular a lock time of now + 1 hour or now + 100 hours
is rejected, and a lock time of now + 24 hours with sequence 1 and exactly
one input and one output passes. -/
theorem assert_tx2_valid_ok_iff :
    (∀ (now : Nat) (tx2 : CTransaction),
      assert_tx2_valid now tx2 = .ok () ↔
        now + 12 * 3600 ≤ tx2.nLockTime ∧ tx2.nLockTime ≤ now + 72 * 3600 ∧
        tx2.vin.length = 1 ∧ tx2.vout.length = 1 ∧
        ∀ txin ∈ tx2.vin, txin.nSequence ≠ maxSequence) ∧
    assert_tx2_valid now0 txLockPlus1h ≠ .ok () ∧
    assert_tx2_valid now0 txLockPlus100h ≠ .ok () ∧
    assert_tx2_valid now0 txLockPlus24h = .ok () := by
  refine ⟨?_, by decide, by decide, by decide⟩
  intro now tx2
  simp only [assert_tx2_valid]
  split_ifs with h1 h2 h3 h4 h5
  · exact iff_of_false (by simp) (fun hc => absurd hc.1 (by omega))
  · exact iff_of_false (by simp) (fun hc => absurd hc.2.1 (by omega))
  · exact iff_of_false (by simp) (fun hc => absurd hc.2.2.1 h3)
  · exact iff_of_false (by simp) (fun hc => absurd hc.2.2.2.1 h4)
  · refine iff_of_false (by simp) (fun hc => ?_)
    obtain ⟨a, ha⟩ := List.length_eq_one.mp hc.2.2.1
    refine hc.2.2.2.2 a (by simp [ha]) ?_
    simpa [ha] using h5
  · refine iff_of_true rfl ⟨by omega, by omega, by omega, by omega, ?_⟩
    intro txin hmem
    obtain ⟨a, ha⟩ := List.length_eq_one.mp (by omega : tx2.vin.length = 1)
    have : txin = a := by simpa [ha] using hmem
    subst this
    simpa [ha] using h5

/-- C6 (amended): the refund validator performs its four checks in the
listed order, and every violated check raises the same error kind
`error.TradeError`, each with its own distinct message: the failure modes
are distinguishable by message, not by error kind. -/
theorem assert_tx2_valid_check_order (now : Nat) (tx2 : CTransaction) :
    (tx2.nLockTime < now + 12 * 3600 →
      assert_tx2_valid now tx2 =
        .error (.tradeError (.lockTimeTooEarly tx2.nLockTime))) ∧
    (now + 12 * 3600 ≤ tx2.nLockTime → now + 72 * 3600 < tx2.nLockTime →
      assert_tx2_valid now tx2 =
        .error (.tradeError (.lockTimeTooLate tx2.nLockTime))) ∧
    (now + 12 * 3600 ≤ tx2.nLockTime → tx2.nLockTime ≤ now + 72 * 3600 →
      tx2.vin.length ≠ 1 →
      assert_tx2_valid now tx2 = .error (.tradeError .notOneInput)) ∧
    (now + 12 * 3600 ≤ tx2.nLockTime → tx2.nLockTime ≤ now + 72 * 3600 →
      tx2.vin.length = 1 → tx2.vout.length ≠ 1 →
      assert_tx2_valid now tx2 = .error (.tradeError .notOneOutput)) ∧
    (now + 12 * 3600 ≤ tx2.nLockTime → tx2.nLockTime ≤ now + 72 * 3600 →
      tx2.vin.length = 1 → tx2.vout.length = 1 →
      (tx2.vin.headD (CMutableTxIn ⟨[], 0⟩)).nSequence = maxSequence →
      assert_tx2_valid now tx2 = .error (.tradeError .finalSequence)) ∧
    (∀ e, assert_tx2_valid now tx2 = .error e → e.kind = .trade) := by
  refine ⟨?_, ?_, ?_, ?_, ?_, ?_⟩
  · intro hc
    simp only [assert_tx2_valid]
    split_ifs
    rfl
  · intro hc1 hc2
    simp only [assert_tx2_valid]
    split_ifs <;> first | rfl | omega
  · intro hc1 hc2 hc3
    simp only [assert_tx2_valid]
    split_ifs <;> first | rfl | omega
  · intro hc1 hc2 hc3 hc4
    simp only [assert_tx2_valid]
    split_ifs <;> first | rfl | omega
  · intro hc1 hc2 hc3 hc4 hc5
    simp only [assert_tx2_valid]
    split_ifs <;> first | rfl | omega
  · intro e he
    simp only [assert_tx2_valid] at he
    split_ifs at he <;> injection he with h9 <;> subst h9 <;> rfl

/-- C6 counterexample: a lock time outside the window and a wrong input
count do not raise distinct error kinds — both raise `error.TradeError`
(only the messages differ), so the failure modes are not distinguishable
by error kind. -/
theorem assert_tx2_valid_same_error_kind :
    assert_tx2_valid now0 txLockPlus1h =
      .error (.tradeError (.lockTimeTooEarly (now0 + 3600))) ∧
    assert_tx2_valid now0 txTwoInputs =
      .error (.tradeError .notOneInput) ∧
    errKind? (assert_tx2_valid now0 txLockPlus1h) =
      errKind? (assert_tx2_valid now0 txTwoInputs) := by
  decide

/-- C6 witness: the first check of the validator, applied at a concrete
too-early lock time. -/
theorem assert_tx2_valid_check_order_witness :
    txLockPlus1h.nLockTime < now0 + 12 * 3600 ∧
    assert_tx2_valid now0 txLockPlus1h =
      .error (.tradeError (.lockTimeTooEarly txLockPlus1h.nLockTime)) :=
  ⟨by decide, (assert_tx2_valid_check_order now0 txLockPlus1h).1 (by decide)⟩

/-- C7: `build_tx3_spend` crashes on every call. Its first statement reads
`fee_rate`, which is neither a parameter nor a module-level name (and
`seckey` is missing in the same way), so Python raises `NameError` before
any transaction is built — the code cannot return the documented
single-input, single-output transaction with the four-element unlocking
script. Evaluated here at a concrete escrow-funding transaction, secret
and address. -/
theorem build_tx3_spend_raises_name_error :
    build_tx3_spend cryptoProbe proxyW tx1c [7] ownA =
      .error (.nameError "fee_rate") := rfl

/-- C8: `build_tx3` produces the same result as `build_tx1` with the own
and peer addresses swapped, and `build_tx4` produces the same result as
`build_tx2` on the same arguments. -/
theorem build_tx3_tx4_mirror :
    (∀ (proxy : Proxy) (quantity : Int) (own_address peer_address : Address)
        (secret_hash : ByteStr) (fee_rate : Nat → Int),
      build_tx3 proxy quantity own_address peer_address secret_hash
          fee_rate =
        build_tx1 proxy quantity peer_address own_address secret_hash
          fee_rate) ∧
    (∀ (c : Crypto) (proxy : Proxy) (tx3 : CTransaction) (nLockTime : Nat)
        (own_address : Address) (fee_rate : Nat → Int),
      build_tx4 c proxy tx3 nLockTime own_address fee_rate =
        build_tx2 c proxy tx3 nLockTime own_address fee_rate) :=
  ⟨fun _ _ _ _ _ _ => rfl, fun _ _ _ _ _ _ => rfl⟩

/-- Closed form of `find_inputs`: it consumes `selectCount` outputs and
errors exactly when their sum stays below the target. -/
theorem find_inputs_eq (unspent : List Utxo) (quantity : Int) :
    find_inputs unspent quantity =
      if sumAmounts (unspent.take (selectCount quantity unspent 0)) <
          quantity then
        .error .fundsError
      else
        .ok ((unspent.take (selectCount quantity unspent 0)).map
              (fun u => CMutableTxIn u.outpoint),
          sumAmounts (unspent.take (selectCount quantity unspent 0))) := by
  simp [find_inputs, find_inputs_loop_eq]

/-- C3 (amended): for every sequence of unspent outputs and every positive
target quantity, `find_inputs` accumulates outputs in the order supplied
until the running total meets or exceeds the target and returns exactly
that selected prefix together with its total; it raises
`InsufficientFundsError` exactly when the sequence is exhausted with every
prefix total below the target. (For target 0 the source still consumes the
first output, see the counterexample.) -/
theorem find_inputs_greedy_spec (unspent : List Utxo) (quantity : Int)
    (hq : 1 ≤ quantity) :
    (∀ txins total,
      find_inputs unspent quantity = .ok (txins, total) ↔
        isGreedySelection unspent quantity txins total) ∧
    (find_inputs unspent quantity = .error .fundsError ↔
      ∀ k, k ≤ unspent.length → sumAmounts (unspent.take k) < quantity) := by
  have hkey := find_inputs_eq unspent quantity
  set n0 := selectCount quantity unspent 0 with hn0
  have hle : n0 ≤ unspent.length := selectCount_le quantity unspent 0
  have hmin : ∀ m, m < n0 → sumAmounts (unspent.take m) < quantity := by
    intro m hm
    have := selectCount_min quantity unspent 0 (by omega) m hm
    simpa using this
  constructor
  · intro txins total
    constructor
    · intro h
      rw [hkey] at h
      by_cases hlt : sumAmounts (unspent.take n0) < quantity
      · rw [if_pos hlt] at h
        exact absurd h (by simp)
      · rw [if_neg hlt, Except.ok.injEq, Prod.mk.injEq] at h
        obtain ⟨htx, htot⟩ := h
        exact ⟨n0, hle, htx.symm, htot.symm, by omega, hmin⟩
    · rintro ⟨n, hn, htx, htot, hcov, hminn⟩
      have hcov0 : quantity ≤ sumAmounts (unspent.take n0) := by
        rcases selectCount_break quantity unspent 0 with hc | ⟨hlen, hall⟩
        · simpa using hc
        · exfalso
          rcases Nat.lt_or_ge n unspent.length with hnl | hnl
          · have := hmin n (by omega)
            omega
          · have hne : n = unspent.length := by omega
            rw [hne, List.take_length] at htot
            omega
      have hnn0 : n = n0 := by
        rcases lt_trichotomy n n0 with hlt | heq | hgt
        · have := hmin n hlt
          omega
        · exact heq
        · have := hminn n0 hgt
          omega
      subst hnn0
      rw [hkey, if_neg (by omega), htx, htot]
  · constructor
    · intro h
      rw [hkey] at h
      by_cases hlt : sumAmounts (unspent.take n0) < quantity
      · intro k hk
        rcases selectCount_break quantity unspent 0 with hc | ⟨hlen, hall⟩
        · rw [← hn0] at hc
          exact absurd hc (by omega)
        · rw [← hn0] at hlen
          rcases Nat.lt_or_ge k unspent.length with hkl | hkl
          · exact hmin k (by omega)
          · have hke : k = unspent.length := by omega
            rw [hke, List.take_length]
            omega
      · rw [if_neg hlt] at h
        exact absurd h (by simp)
    · intro hall
      rw [hkey, if_pos (hall n0 hle)]

/-- C3 counterexample: with one unspent output of 30 and target quantity 0
the code still selects the first output — the returned selection is not
the prefix at the first point where the running total meets or exceeds the
target (that prefix is empty). -/
theorem find_inputs_zero_target_cex :
    find_inputs [⟨30, ⟨[1], 0⟩⟩] 0 = .ok ([CMutableTxIn ⟨[1], 0⟩], 30) ∧
    ¬ isGreedySelection [⟨30, ⟨[1], 0⟩⟩] 0 [CMutableTxIn ⟨[1], 0⟩] 30 := by
  refine ⟨by decide, ?_⟩
  rintro ⟨n, hn, htx, htot, hcov, hmin⟩
  rcases n with _ | _ | n
  · simp at htx
  · have h0 := hmin 0 (by omega)
    simp [sumAmounts] at h0
  · simp at hn

/-- C3 witness: the selection property at outputs [30, 50, 20] and target
40 (selects the first two, total 80), and the error at target 1000. -/
theorem find_inputs_greedy_spec_witness :
    (1 : Int) ≤ 40 ∧
    isGreedySelection [⟨30, ⟨[1], 0⟩⟩, ⟨50, ⟨[2], 0⟩⟩, ⟨20, ⟨[3], 0⟩⟩] 40
      [CMutableTxIn ⟨[1], 0⟩, CMutableTxIn ⟨[2], 0⟩] 80 ∧
    find_inputs [⟨30, ⟨[1], 0⟩⟩, ⟨50, ⟨[2], 0⟩⟩, ⟨20, ⟨[3], 0⟩⟩] 1000 =
      .error .fundsError := by
  refine ⟨by norm_num, ?_, ?_⟩
  · exact ((find_inputs_greedy_spec _ 40 (by norm_num)).1 _ _).mp (by decide)
  · refine (find_inputs_greedy_spec _ 1000 (by norm_num)).2.mpr ?_
    intro k hk
    simp only [List.length_cons, List.length_nil] at hk
    interval_cases k <;> decide

/-- Decoding a serialized push recovers the payload and the trailing
bytes. -/
theorem decodePush_pushdata (x s : ByteStr) :
    decodePush (pushdata x ++ s) = some (x, s) := by
  unfold pushdata
  split_ifs with h1 h2 h3
  · show decodePush (x.length :: (x ++ s)) = some (x, s)
    simp only [decodePush]
    rw [if_pos h1, List.take_left, List.drop_left]
  · show decodePush (76 :: x.length :: (x ++ s)) = some (x, s)
    simp only [decodePush, if_true]
    rw [List.take_left, List.drop_left]
    simp
  · show decodePush (77 :: x.length % 256 :: x.length / 256 :: (x ++ s)) =
      some (x, s)
    simp only [decodePush, if_true]
    have hl : x.length % 256 + 256 * (x.length / 256) = x.length :=
      Nat.mod_add_div _ _
    rw [hl, List.take_left, List.drop_left]
    simp
  · show decodePush (78 :: x.length % 256 :: x.length / 256 % 256 ::
        x.length / 65536 % 256 :: x.length / 16777216 :: (x ++ s)) =
      some (x, s)
    simp only [decodePush, if_true]
    have hl : x.length % 256 + 256 * (x.length / 256 % 256) +
        65536 * (x.length / 65536 % 256) +
        16777216 * (x.length / 16777216) = x.length := by
      omega
    rw [hl, List.take_left, List.drop_left]
    simp

/-- A serialized push determines its payload: `pushdata` is
left-cancellative under concatenation. -/
theorem pushdata_append_inj {x y s t : ByteStr}
    (h : pushdata x ++ s = pushdata y ++ t) : x = y ∧ s = t := by
  have hx := decodePush_pushdata x s
  rw [h, decodePush_pushdata y t] at hx
  simp only [Option.some.injEq, Prod.mk.injEq] at hx
  exact ⟨hx.1.symm, hx.2.symm⟩

/-- C9: for every pair of distinct addresses A and B and every secret hash
H, the serialized escrow script built with (A, B, H) differs byte-for-byte
from the one built with (B, A, H). -/
theorem escrow_script_role_asymmetry (A B : Address) (H : ByteStr)
    (hne : A ≠ B) :
    serializeScript (build_tx1_cscript A B H) ≠
      serializeScript (build_tx1_cscript B A H) := by
  intro heq
  simp only [build_tx1_cscript, serializeScript, serializeElem,
    List.cons_append, List.append_assoc, List.singleton_append,
    List.nil_append, List.cons.injEq, eq_self_iff_true, true_and] at heq
  exact hne ((pushdata_append_inj heq).1.symm)

/-- C9 witness: the role asymmetry at two concrete distinct addresses. -/
theorem escrow_script_role_asymmetry_witness :
    ownA ≠ peerA ∧
    serializeScript (build_tx1_cscript ownA peerA shA) ≠
      serializeScript (build_tx1_cscript peerA ownA shA) :=
  ⟨by decide, escrow_script_role_asymmetry ownA peerA shA (by decide)⟩

/-- C2 (amended): for every funding transaction with at least one output,
`build_tx2` computes the signature hash for the refund transaction over
the funding transaction's actual recorded output script at index 0 — it
receives neither the peer address nor the secret hash, so it cannot
reconstruct the escrow script — and produces an unlocking script carrying
exactly this party's signature and public key. -/
theorem build_tx2_unlocking_script (c : Crypto) (proxy : Proxy)
    (tx1 : CTransaction) (nLockTime : Nat) (own_address : Address)
    (fee_rate : Nat → Int) (prev : CTxOut) (rest : List CTxOut)
    (h : tx1.vout = prev :: rest) :
    (build_tx2 c proxy tx1 nLockTime own_address fee_rate).vin.map
        CTxIn.scriptSig =
      [[.data (c.sign (proxy.dumpprivkey own_address)
            (c.signatureHash prev.scriptPubKey
              (build_tx2_unsigned c tx1 nLockTime own_address fee_rate) 0
              SIGHASH_ALL) ++ [SIGHASH_ALL]),
        .data (c.pub (proxy.dumpprivkey own_address))]] := by
  simp [build_tx2, build_tx2_unsigned, h]

/-- C2 counterexample: with probe primitives that make the signed-over
script visible, `build_tx2` on a funding transaction whose recorded output
script is a plain pay-to-pubkey-hash script signs over that recorded
script — which differs from the escrow script reconstructed from
(own address, peer address, secret hash). -/
theorem build_tx2_signs_recorded_script_cex :
    (build_tx2 cryptoProbe proxyW tx1c 1500000 ownA fee1000).vin.map
        CTxIn.scriptSig =
      [[.data (serializeScript (to_scriptPubKey [5]) ++ [SIGHASH_ALL]),
        .data ownA]] ∧
    serializeScript (to_scriptPubKey [5]) ≠
      serializeScript (build_tx1_cscript ownA peerA shA) := by
  decide

/-- C2 witness: the amended characterization at a concrete funding
transaction. -/
theorem build_tx2_unlocking_script_witness :
    tx1c.vout = CTxOut.mk 100000 (to_scriptPubKey [5]) :: [] ∧
    (build_tx2 cryptoProbe proxyW tx1c 1500000 ownA fee1000).vin.map
        CTxIn.scriptSig =
      [[.data (cryptoProbe.sign (proxyW.dumpprivkey ownA)
            (cryptoProbe.signatureHash
              (CTxOut.mk 100000 (to_scriptPubKey [5])).scriptPubKey
              (build_tx2_unsigned cryptoProbe tx1c 1500000 ownA fee1000) 0
              SIGHASH_ALL) ++ [SIGHASH_ALL]),
        .data (cryptoProbe.pub (proxyW.dumpprivkey ownA))]] :=
  ⟨rfl,
   build_tx2_unlocking_script cryptoProbe proxyW tx1c 1500000 ownA fee1000
     (CTxOut.mk 100000 (to_scriptPubKey [5])) [] rfl⟩

/-- C4: for every peer refund transaction whose single input's unlocking
script carries exactly two elements (peer signature, peer public key),
`sign_tx2` produces a completed unlocking script with exactly six elements
in the documented order (leading zero, this party's signature, peer's
signature, this party's public key, peer's public key, trailing 2),
computing the signature hash over the escrow script rebuilt with roles
reversed; with fewer than two or more than two elements it fails with an
error. -/
theorem sign_tx2_spec (c : Crypto) (proxy : Proxy) (tx2 : CTransaction)
    (own_address peer_address : Address) (secret_hash : ByteStr)
    (txin0 : CTxIn) (h : tx2.vin = [txin0]) :
    (∀ s p, txin0.scriptSig = [.data s, .data p] → s ≠ [] → p ≠ [] →
      sign_tx2 c proxy tx2 own_address peer_address secret_hash =
        .ok { tx2 with vin := [{ txin0 with scriptSig :=
          [.num 0,
           .data (c.sign (proxy.dumpprivkey own_address)
               (c.signatureHash
                 (build_tx1_cscript peer_address own_address secret_hash)
                 tx2 0 SIGHASH_ALL) ++ [SIGHASH_ALL]),
           .data s,
           .data (c.pub (proxy.dumpprivkey own_address)),
           .data p,
           .num 2] }] }) ∧
    (∀ ds : List ByteStr,
      txin0.scriptSig = ds.map ScriptElem.data → ds.length < 2 →
      sign_tx2 c proxy tx2 own_address peer_address secret_hash =
        .error (.tradeError .lessThanTwoElements)) ∧
    (∀ ds : List ByteStr,
      txin0.scriptSig = ds.map ScriptElem.data → 2 < ds.length →
      sign_tx2 c proxy tx2 own_address peer_address secret_hash =
        .error (.tradeError .moreThanTwoElements)) := by
  refine ⟨?_, ?_, ?_⟩
  · intro s p hsig hs hp
    rcases s with _ | ⟨s0, srest⟩
    · exact absurd rfl hs
    rcases p with _ | ⟨p0, prest⟩
    · exact absurd rfl hp
    simp [sign_tx2, h, hsig, extract_two, elemData]
  · intro ds hsig hlen
    rcases ds with _ | ⟨d0, _ | ⟨d1, rest⟩⟩
    · simp [sign_tx2, h, hsig, extract_two, elemData]
    · rcases d0 with _ | ⟨b0, brest⟩ <;>
        simp [sign_tx2, h, hsig, extract_two, elemData]
    · simp only [List.length_cons] at hlen
      omega
  · intro ds hsig hlen
    rcases ds with _ | ⟨d0, _ | ⟨d1, _ | ⟨d2, rest⟩⟩⟩
    · simp at hlen
    · simp only [List.length_cons, List.length_nil] at hlen
      omega
    · simp only [List.length_cons, List.length_nil] at hlen
      omega
    · simp [sign_tx2, h, hsig, extract_two, elemData]

/-- C4 witness: the cooperative signer at a concrete peer refund
transaction with unlocking script (signature [7], public key [8]). -/
theorem sign_tx2_spec_witness :
    tx2c.vin = [⟨⟨[9], 0⟩, [.data [7], .data [8]], 1⟩] ∧
    sign_tx2 cryptoProbe proxyW tx2c ownA peerA shA =
      .ok { tx2c with vin := [{ (⟨⟨[9], 0⟩, [.data [7], .data [8]], 1⟩ :
          CTxIn) with scriptSig :=
        [.num 0,
         .data (cryptoProbe.sign (proxyW.dumpprivkey ownA)
             (cryptoProbe.signatureHash
               (build_tx1_cscript peerA ownA shA) tx2c 0 SIGHASH_ALL) ++
           [SIGHASH_ALL]),
         .data [7],
         .data (cryptoProbe.pub (proxyW.dumpprivkey ownA)),
         .data [8],
         .num 2] }] } :=
  ⟨rfl,
   (sign_tx2_spec cryptoProbe proxyW tx2c ownA peerA shA
       ⟨⟨[9], 0⟩, [.data [7], .data [8]], 1⟩ rfl).1 [7] [8] rfl
     (by decide) (by decide)⟩

/-- C5: whenever the wallet's signing call preserves the outputs,
`build_tx1` returns a transaction with exactly one escrow output paying
the quantity to the escrow script at the head of its output list, followed
by a change output paying selected total minus (quantity + fee) exactly
when the selected total exceeds quantity + fee. -/
theorem build_tx1_outputs (proxy : Proxy) (quantity : Int)
    (own_address peer_address : Address) (secret_hash : ByteStr)
    (fee_rate : Nat → Int)
    (hsign : ∀ t, (proxy.signrawtransaction t).tx.vout = t.vout) :
    ∀ tx, build_tx1 proxy quantity own_address peer_address secret_hash
        fee_rate = .ok tx →
      ∃ txins total,
        find_inputs proxy.listunspent (quantity + fee_rate 2000) =
          .ok (txins, total) ∧
        tx.vout =
          CTxOut.mk quantity
            (build_tx1_cscript own_address peer_address secret_hash) ::
          (if total > quantity + fee_rate 2000 then
            [CTxOut.mk (total - (quantity + fee_rate 2000))
              (to_scriptPubKey proxy.getrawchangeaddress)]
          else []) := by
  intro tx htx
  simp only [build_tx1] at htx
  rcases hfi : find_inputs proxy.listunspent (quantity + fee_rate 2000) with
    e | ⟨txins, total⟩
  · rw [hfi] at htx
    exact absurd htx (by simp)
  · rw [hfi] at htx
    dsimp only at htx
    refine ⟨txins, total, rfl, ?_⟩
    by_cases htot : total > quantity + fee_rate 2000
    · rw [if_pos htot] at htx
      rw [if_pos htot]
      split at htx
      · rw [Except.ok.injEq] at htx
        subst htx
        rw [hsign]
        simp
      · exact absurd htx (by simp)
    · rw [if_neg htot] at htx
      rw [if_neg htot]
      split at htx
      · rw [Except.ok.injEq] at htx
        subst htx
        rw [hsign]
      · exact absurd htx (by simp)

/-- C5 witness: target 100000, flat fee 1000 and a single available output
of 150000 give an escrow output of 100000 and a change output of 49000. -/
theorem build_tx1_outputs_witness :
    (∀ t, (proxy5.signrawtransaction t).tx.vout = t.vout) ∧
    build_tx1 proxy5 100000 ownA peerA shA fee1000 = .ok txC5 ∧
    (∃ txins total,
      find_inputs proxy5.listunspent (100000 + fee1000 2000) =
        .ok (txins, total) ∧
      txC5.vout =
        CTxOut.mk 100000 (build_tx1_cscript ownA peerA shA) ::
        (if total > 100000 + fee1000 2000 then
          [CTxOut.mk (total - (100000 + fee1000 2000))
            (to_scriptPubKey proxy5.getrawchangeaddress)]
        else [])) ∧
    txC5.vout = [CTxOut.mk 100000 (build_tx1_cscript ownA peerA shA),
      CTxOut.mk 49000 (to_scriptPubKey chgA)] :=
  ⟨fun t => rfl, by decide,
   build_tx1_outputs proxy5 100000 ownA peerA shA fee1000 (fun t => rfl)
     txC5 (by decide),
   by decide⟩

/-- C10: `sign_tx2` leaves its tx2 argument unchanged. In the heap model,
every cell allocated before the call — in particular the caller's input
cell, still holding the peer's two-element unlocking script — is untouched
by the call, and on success the returned transaction's inputs are freshly
allocated cells. -/
theorem sign_tx2_heap_frame (c : Crypto) (proxy : Proxy) (h : Heap)
    (t : HTx) (own_address peer_address : Address)
    (secret_hash : ByteStr) :
    (∀ r, r < h.nextRef →
      ((sign_tx2_heap c proxy h t own_address peer_address
          secret_hash).1).cells r = h.cells r) ∧
    (∀ t', (sign_tx2_heap c proxy h t own_address peer_address
        secret_hash).2 = .ok t' → ∀ r' ∈ t'.vin, h.nextRef ≤ r') := by
  unfold sign_tx2_heap
  split_ifs with hlen
  · exact ⟨fun r _ => rfl, fun t' ht' => absurd ht' (by simp)⟩
  obtain ⟨a, ha⟩ := List.length_eq_one.mp (by omega : t.vin.length = 1)
  rcases hex : extract_two (h.cells (t.vin.headD 0)).scriptSig none none
    with e | ⟨os, op⟩
  · exact ⟨fun r _ => rfl, fun t' ht' => absurd ht' (by simp)⟩
  · rcases os with _ | ⟨_ | ⟨s0, srest⟩⟩
    · exact ⟨fun r _ => rfl, fun t' ht' => absurd ht' (by simp)⟩
    · exact ⟨fun r _ => rfl, fun t' ht' => absurd ht' (by simp)⟩
    rcases op with _ | ⟨_ | ⟨p0, prest⟩⟩
    · exact ⟨fun r _ => rfl, fun t' ht' => absurd ht' (by simp)⟩
    · exact ⟨fun r _ => rfl, fun t' ht' => absurd ht' (by simp)⟩
    constructor
    · intro r hr
      simp only [ha, from_tx, from_tx_alloc, Heap.alloc, Heap.write,
        List.headD_cons]
      rw [if_neg (by omega), if_neg (by omega)]
    · intro t' ht'
      simp only [ha, from_tx, from_tx_alloc] at ht'
      rw [Except.ok.injEq] at ht'
      subst ht'
      intro r' hr'
      simp only [Heap.alloc, List.mem_singleton] at hr'
      subst hr'
      exact le_refl _

/-- C10 witness: a concrete heap with one allocated input cell holding the
peer's two-element unlocking script; after the call the cell is
unchanged. -/
theorem sign_tx2_heap_frame_witness :
    (0 : Nat) < heap0.nextRef ∧
    ((sign_tx2_heap cryptoProbe proxyW heap0 htx0 ownA peerA
        shA).1).cells 0 = heap0.cells 0 :=
  ⟨by decide,
   (sign_tx2_heap_frame cryptoProbe proxyW heap0 htx0 ownA peerA shA).1 0
     (by decide)⟩
